import Mathlib

/-!
Shallow embedding of the LATHYSPRAY server (src/server.js, second revision in
the file, which is the one the running program uses).  JavaScript values are
modelled as follows: `undefined` fields are `Option.none`; JS machine numbers
used as identifiers, week numbers and rates are `Int` (the program only ever
does integer arithmetic on them); strings are `String`.  Stateful route
handlers become pure functions from the loaded JSON array (a `List`) and the
request payload to the written-back array plus the HTTP response data.
-/

namespace LathySpray

/-- Whitespace predicate used by the JS runtime when trimming and when
`parseInt` skips leading space. -/
def jsWhitespace (c : Char) : Bool :=
  c = ' ' || c = '\t' || c = '\n' || c = '\r'

/-- Value of a leading run of decimal digits; `none` when there is no digit,
mirroring `parseInt` returning `NaN`.  Trailing non-digit characters are
ignored, as `parseInt` does. -/
def leadingNat (cs : List Char) : Option Nat :=
  let ds := cs.takeWhile Char.isDigit
  if ds.isEmpty then none
  else some (ds.foldl (fun a c => a * 10 + (c.toNat - 48)) 0)

/-- `parseInt(s, 10)`: skip leading whitespace, optional sign, then leading
digits; `none` models `NaN`. -/
def jsParseInt (s : String) : Option Int :=
  let cs := s.toList.dropWhile jsWhitespace
  match cs with
  | '-' :: rest => (leadingNat rest).map (fun n => -(n : Int))
  | '+' :: rest => (leadingNat rest).map (fun n => (n : Int))
  | _ => (leadingNat cs).map (fun n => (n : Int))

/-- `String.prototype.trim()` restricted to ASCII whitespace. -/
def jsTrim (s : String) : String :=
  String.mk (((s.toList.dropWhile jsWhitespace).reverse.dropWhile jsWhitespace).reverse)

/-- `s.split("-")` on character lists: every dash starts a new chunk. -/
def splitDashChars (cs : List Char) : List (List Char) :=
  match cs with
  | [] => [[]]
  | c :: rest =>
    let r := splitDashChars rest
    if c = '-' then [] :: r
    else
      match r with
      | [] => [[c]]
      | h :: t => (c :: h) :: t

/-- `s.split("-")` as in JavaScript. -/
def splitDash (s : String) : List String :=
  (splitDashChars s.toList).map String.mk

/-- `parseWeekRange` from server.js: a string of form start-end is split on
the dash and both halves parsed; on failure the whole string is parsed as a
single integer giving a one-week interval; `none` models the NaN,NaN result. -/
def parseWeekRange (s0 : String) : Option (Int × Int) :=
  let s := jsTrim s0
  match splitDash s with
  | [p1, p2] =>
    match jsParseInt p1, jsParseInt p2 with
    | some a, some b => some (a, b)
    | _, _ => (jsParseInt s).map (fun v => (v, v))
  | _ => (jsParseInt s).map (fun v => (v, v))

/-- `toLowerCase` for the ASCII strings the program compares. -/
def jsToLower (s : String) : String :=
  String.mk (s.toList.map Char.toLower)

/-- A stored farm report row.  `createdAt` is the millisecond timestamp of the
ISO creation string (`none` when the field is absent). -/
structure FarmRow where
  id : Option Int := none
  year : String := ""
  weekRange : String := ""
  farm : String := ""
  greenhouse : String := ""
  bed : String := ""
  crop : String := ""
  variety : String := ""
  pest : String := ""
  disease : String := ""
  pestRate : Int := 0
  diseaseRate : Int := 0
  createdAt : Option Nat := none
deriving DecidableEq, Repr

/-- Query parameters accepted by `filterFarmRows`.  A `none` string filter is
an absent or empty query parameter (both are falsy in the JS guard); the week
and rate bounds are the parsed numeric values, `none` when not supplied. -/
structure FarmQuery where
  year : Option String := none
  weekFrom : Option Int := none
  weekTo : Option Int := none
  farm : Option String := none
  greenhouse : Option String := none
  bed : Option String := none
  crop : Option String := none
  variety : Option String := none
  pest : Option String := none
  disease : Option String := none
  pestRateMin : Option Int := none
  pestRateMax : Option Int := none
  diseaseRateMin : Option Int := none
  diseaseRateMax : Option Int := none
deriving DecidableEq, Repr

/-- Case-insensitive exact-match filter on one string field. -/
def strPass (qv : Option String) (rv : String) : Bool :=
  match qv with
  | none => true
  | some v => jsToLower rv = jsToLower v

/-- The week clause of `filterFarmRows`: when a bound is active the row
interval must parse, must not start before `weekFrom` and must not end after
`weekTo`. -/
def weekPass (q : FarmQuery) (r : FarmRow) : Bool :=
  if q.weekFrom.isNone && q.weekTo.isNone then true
  else
    match parseWeekRange r.weekRange with
    | none => false
    | some (s, e) =>
      (match q.weekFrom with
       | none => true
       | some a => decide (a ≤ s)) &&
      (match q.weekTo with
       | none => true
       | some b => decide (e ≤ b))

/-- Lower bound check for a rate filter. -/
def ratePassMin (qv : Option Int) (rv : Int) : Bool :=
  match qv with
  | none => true
  | some m => decide (m ≤ rv)

/-- Upper bound check for a rate filter. -/
def ratePassMax (qv : Option Int) (rv : Int) : Bool :=
  match qv with
  | none => true
  | some m => decide (rv ≤ m)

/-- The row predicate of `filterFarmRows` in server.js. -/
def farmPred (q : FarmQuery) (r : FarmRow) : Bool :=
  strPass q.year r.year &&
  weekPass q r &&
  strPass q.farm r.farm &&
  strPass q.greenhouse r.greenhouse &&
  strPass q.bed r.bed &&
  strPass q.crop r.crop &&
  strPass q.variety r.variety &&
  strPass q.pest r.pest &&
  strPass q.disease r.disease &&
  ratePassMin q.pestRateMin r.pestRate &&
  ratePassMax q.pestRateMax r.pestRate &&
  ratePassMin q.diseaseRateMin r.diseaseRate &&
  ratePassMax q.diseaseRateMax r.diseaseRate

/-- Comparator of the final sort in `filterFarmRows`: row `a` may precede row
`b` when its creation timestamp is later, or when the timestamps tie (absent
counting as 0) and its identifier is at least as large. -/
def frLE (a b : FarmRow) : Prop :=
  b.createdAt.getD 0 < a.createdAt.getD 0 ∨
    (a.createdAt.getD 0 = b.createdAt.getD 0 ∧ b.id.getD 0 ≤ a.id.getD 0)

instance : DecidableRel frLE := fun a b => by
  unfold frLE
  exact inferInstance

instance : IsTotal FarmRow frLE := by
  constructor
  intro a b
  unfold frLE
  omega

instance : IsTrans FarmRow frLE := by
  constructor
  intro a b c hab hbc
  unfold frLE at hab hbc ⊢
  omega

/-- `filterFarmRows` from server.js: filter the stored rows by the query and
sort the survivors newest-first (by `createdAt`, then by `id`, descending).
The JS engine sort is stable; insertion sort is a faithful stable model. -/
def filterFarmRows (q : FarmQuery) (rows : List FarmRow) : List FarmRow :=
  List.insertionSort frLE (rows.filter (farmPred q))

/-- Query that activates only the week window, as in the C1 scenario. -/
def weekOnlyQuery (a b : Int) : FarmQuery :=
  { weekFrom := some a, weekTo := some b }

/-- An agronomy row.  `id` and `supervisorRemarks` are the two fields the
merge logic inspects, kept as distinguished components (`none` is a JS
`undefined`); every other field travels in `rest`, an association list
standing for the remaining properties of the JSON object (by convention it
never holds the keys id or supervisorRemarks). -/
structure AgroRow where
  id : Option Int := none
  supervisorRemarks : Option String := none
  rest : List (String × String) := []
deriving DecidableEq, Repr

/-- The recurring JS idiom
length question-mark Math.max of (id or 0) plus one, colon 1:
next identifier over a possibly empty list of optional ids. -/
def jsNextIdOf (ids : List (Option Int)) : Int :=
  match ids.map (fun o => o.getD 0) with
  | [] => 1
  | v :: vs => vs.foldl max v + 1

/-- Next agronomy identifier, as computed by the add and save handlers. -/
def jsNextId (rows : List AgroRow) : Int :=
  jsNextIdOf (rows.map (fun r => r.id))

/-- POST /agro/add: the handler computes the next id, spreads the request
body over it (so a body that carries an id key overrides the computed one)
and then forces `supervisorRemarks` to the empty string; the row is appended.
Returns the new file content and the stored row. -/
def agroAdd (rows : List AgroRow) (body : AgroRow) : List AgroRow × AgroRow :=
  let newRow : AgroRow :=
    { id := match body.id with
            | some n => some n
            | none => some (jsNextId rows),
      supervisorRemarks := some "",
      rest := body.rest }
  (rows ++ [newRow], newRow)

/-- Sequential add calls, recording the identifier stored with each new row. -/
def addSeq (rows : List AgroRow) (bodies : List AgroRow) : List AgroRow × List Int :=
  match bodies with
  | [] => (rows, [])
  | b :: bs =>
    let p := agroAdd rows b
    let q := addSeq p.1 bs
    (q.1, p.2.id.getD 0 :: q.2)

/-- Id assignment in POST /agro/save: a falsy id (absent or 0) is replaced by
the next id over the current stored rows. -/
def assignSaveId (ex : List AgroRow) (row : AgroRow) : AgroRow :=
  match row.id with
  | some n => if n = 0 then { row with id := some (jsNextId ex) } else row
  | none => { row with id := some (jsNextId ex) }

/-- Duplicate test of POST /agro/save: same id, or simultaneous strict
equality on the farm, gh, area, crop and time properties (an absent property
on both sides also compares equal, as undefined === undefined does). -/
def saveDup (r w : AgroRow) : Bool :=
  decide (r.id = w.id) ||
  (decide (r.rest.lookup "farm" = w.rest.lookup "farm") &&
   decide (r.rest.lookup "gh" = w.rest.lookup "gh") &&
   decide (r.rest.lookup "area" = w.rest.lookup "area") &&
   decide (r.rest.lookup "crop" = w.rest.lookup "crop") &&
   decide (r.rest.lookup "time" = w.rest.lookup "time"))

/-- One incoming row of POST /agro/save against the state
(stored rows, added count, duplicate count). -/
def saveStep (st : List AgroRow × Nat × Nat) (row : AgroRow) : List AgroRow × Nat × Nat :=
  let ex := st.1
  let row2 := assignSaveId ex row
  if ex.any (fun r => saveDup r row2) then (ex, st.2.1, st.2.2 + 1)
  else (ex ++ [row2], st.2.1 + 1, st.2.2)

/-- POST /agro/save: fold the incoming batch over the stored rows. -/
def agroSave (existing : List AgroRow) (newRows : List AgroRow) : List AgroRow × Nat × Nat :=
  newRows.foldl saveStep (existing, 0, 0)

/-- JS object spread of two objects restricted to the `rest` association
lists: keys of the second override keys of the first. -/
def spreadMerge (old new : List (String × String)) : List (String × String) :=
  old.filter (fun p => !(new.any (fun q => decide (q.1 = p.1)))) ++ new

/-- The merge of POST /agro/bulk_set when an incoming row matches a stored
row by id: spread the new row over the old one and default
`supervisorRemarks` to the prior value (then to the empty string) when the
incoming row omits it. -/
def mergeAgro (old new : AgroRow) : AgroRow :=
  { id := new.id,
    supervisorRemarks := some (new.supervisorRemarks.getD (old.supervisorRemarks.getD "")),
    rest := spreadMerge old.rest new.rest }

/-- Replace the first row whose id equals the new row id by the merged row;
`none` when no row matches. -/
def bulkMergeFirst (l : List AgroRow) (row : AgroRow) : Option (List AgroRow) :=
  match l with
  | [] => none
  | x :: xs =>
    if x.id = row.id then some (mergeAgro x row :: xs)
    else (bulkMergeFirst xs row).map (fun ys => x :: ys)

/-- Id assignment of POST /agro/bulk_set: a falsy id (absent or 0) becomes
the incremented running max, which is also the new running max. -/
def bulkAssign (maxId : Int) (row : AgroRow) : AgroRow × Int :=
  match row.id with
  | some n => if n = 0 then ({ row with id := some (maxId + 1) }, maxId + 1)
              else (row, maxId)
  | none => ({ row with id := some (maxId + 1) }, maxId + 1)

/-- Default applied to an appended bulk_set row: a falsy `supervisorRemarks`
(absent or empty) becomes the empty string. -/
def bulkAppendFix (row2 : AgroRow) : AgroRow :=
  match row2.supervisorRemarks with
  | some s => if s = "" then { row2 with supervisorRemarks := some "" } else row2
  | none => { row2 with supervisorRemarks := some "" }

/-- Insertion of one id-assigned bulk_set row: merge into the first stored
row with the same id, or append with the remarks default. -/
def bulkInsert (merged : List AgroRow) (row2 : AgroRow) : List AgroRow :=
  match bulkMergeFirst merged row2 with
  | some merged2 => merged2
  | none => merged ++ [bulkAppendFix row2]

/-- One incoming row of POST /agro/bulk_set against (merged rows, running max
id). -/
def bulkStep (st : List AgroRow × Int) (row : AgroRow) : List AgroRow × Int :=
  (bulkInsert st.1 (bulkAssign st.2 row).1, (bulkAssign st.2 row).2)

/-- Starting max id of POST /agro/bulk_set: reduce over the stored rows with
seed 0 of (id or 0). -/
def bulkMaxId0 (existing : List AgroRow) : Int :=
  existing.foldl (fun m r => max m (r.id.getD 0)) 0

/-- POST /agro/bulk_set: merge the incoming batch into the stored rows. -/
def bulkSet (existing newData : List AgroRow) : List AgroRow :=
  (newData.foldl bulkStep (existing, bulkMaxId0 existing)).1

/-- Set `supervisorRemarks` of the first row with the given id; `none` when
no row matches. -/
def patchFirst (rows : List AgroRow) (i : Int) (v : String) : Option (List AgroRow) :=
  match rows with
  | [] => none
  | r :: rs =>
    if r.id = some i then some ({ r with supervisorRemarks := some v } :: rs)
    else (patchFirst rs i v).map (fun ys => r :: ys)

/-- POST /agro/supervisor-remarks: 400 when the id is falsy, 404 (file
untouched) when no row matches, otherwise 200 with the field set to the given
text (empty string when the text is falsy).  Returns the HTTP status and the
file content after the request. -/
def patchSupervisorRemarks (rows : List AgroRow) (i : Int) (text : Option String) :
    Nat × List AgroRow :=
  if i = 0 then (400, rows)
  else
    match patchFirst rows i (text.getD "") with
    | none => (404, rows)
    | some rows2 => (200, rows2)

/-- A raw spreadsheet row as produced by sheet_to_json with defval the empty
string: every referenced column-name variant is a string field (a column that
is absent behaves like the empty string under the JS or-chains), and `id` is
the numeric id column when present and non-zero truthy. -/
structure RawRow where
  id : Option Int := none
  farm : String := ""
  farmU : String := ""
  gh : String := ""
  ghU : String := ""
  area : String := ""
  areaU : String := ""
  crop : String := ""
  cropU : String := ""
  variety : String := ""
  varietyU : String := ""
  mode : String := ""
  modeU : String := ""
  method : String := ""
  methodU : String := ""
  time : String := ""
  timeU : String := ""
  mon : String := ""
  monU : String := ""
  monday : String := ""
  tue : String := ""
  tueU : String := ""
  tuesday : String := ""
  wed : String := ""
  wedU : String := ""
  wednesday : String := ""
  thu : String := ""
  thuU : String := ""
  thursday : String := ""
  fri : String := ""
  friU : String := ""
  friday : String := ""
  sat : String := ""
  satU : String := ""
  saturday : String := ""
  sun : String := ""
  sunU : String := ""
  sunday : String := ""
  target : String := ""
  targetU : String := ""
  justification : String := ""
  justificationU : String := ""
  morning : String := ""
  morningU : String := ""
  evening : String := ""
  eveningU : String := ""
  preparedBy : String := ""
  preparedByHdr : String := ""
  agronomistRemarks : String := ""
  agronomistRemarksHdr : String := ""
  supervisorRemarks : String := ""
deriving DecidableEq, Repr

/-- JS a or b on strings: the empty string is falsy. -/
def jsOr (a b : String) : String :=
  if a = "" then b else a

/-- The canonical field list built by the import handler from one raw row
(the or-chains over the header aliases; the uppercase alias of a column is
the field with the U suffix, the spelt-out day name its own field). -/
def normalizeFields (row : RawRow) : List (String × String) :=
  [("farm", jsOr row.farm row.farmU),
   ("gh", jsOr row.gh row.ghU),
   ("area", jsOr row.area row.areaU),
   ("crop", jsOr row.crop row.cropU),
   ("variety", jsOr row.variety row.varietyU),
   ("mode", jsOr row.mode row.modeU),
   ("method", jsOr row.method row.methodU),
   ("time", jsOr row.time row.timeU),
   ("mon", jsOr row.mon (jsOr row.monU row.monday)),
   ("tue", jsOr row.tue (jsOr row.tueU row.tuesday)),
   ("wed", jsOr row.wed (jsOr row.wedU row.wednesday)),
   ("thu", jsOr row.thu (jsOr row.thuU row.thursday)),
   ("fri", jsOr row.fri (jsOr row.friU row.friday)),
   ("sat", jsOr row.sat (jsOr row.satU row.saturday)),
   ("sun", jsOr row.sun (jsOr row.sunU row.sunday)),
   ("target", jsOr row.target row.targetU),
   ("justification", jsOr row.justification row.justificationU),
   ("morning", jsOr row.morning row.morningU),
   ("evening", jsOr row.evening row.eveningU),
   ("preparedBy", jsOr row.preparedBy row.preparedByHdr),
   ("agronomistRemarks", jsOr row.agronomistRemarks row.agronomistRemarksHdr)]

/-- The mapping pass of POST /agro/import: give each raw row an id (its own
truthy id, else the incremented running max over the stored rows), normalize
the columns, and take `supervisorRemarks` from the stored row with the same
id when one exists, else from the raw row (defaulted to the empty string). -/
def importMap (existingRows : List AgroRow) (raws : List RawRow) : List AgroRow :=
  (raws.foldl
    (fun (st : List AgroRow × Int) row =>
      let hasId : Option Int :=
        match row.id with
        | some n => if n = 0 then none else some n
        | none => none
      let theId : Int × Int :=
        match hasId with
        | some n => (n, st.2)
        | none => (st.2 + 1, st.2 + 1)
      let prior : Option AgroRow :=
        match hasId with
        | some n => existingRows.find? (fun r => decide (r.id = some n))
        | none => none
      let sr : Option String :=
        match prior with
        | some er => er.supervisorRemarks
        | none => some row.supervisorRemarks
      (st.1 ++ [{ id := some theId.1, supervisorRemarks := sr,
                  rest := normalizeFields row }], theId.2))
    ([], bulkMaxId0 existingRows)).1

/-- Replace the first row with the same id by the given row; `none` when no
row matches. -/
def replaceFirst (l : List AgroRow) (r : AgroRow) : Option (List AgroRow) :=
  match l with
  | [] => none
  | x :: xs =>
    if x.id = r.id then some (r :: xs)
    else (replaceFirst xs r).map (fun ys => x :: ys)

/-- The merge pass of POST /agro/import: each normalized row replaces the
first stored row with its id outright, or is appended. -/
def replaceOrAppend (merged : List AgroRow) (r : AgroRow) : List AgroRow :=
  (replaceFirst merged r).getD (merged ++ [r])

/-- POST /agro/import: map the raw spreadsheet rows and merge them into the
stored rows by replacement. -/
def importFromSpreadsheet (existingRows : List AgroRow) (raws : List RawRow) :
    List AgroRow :=
  (importMap existingRows raws).foldl replaceOrAppend existingRows

/-- Request body of POST /farmreport.  String fields use the empty string for
an absent or empty value (both falsy); the two rates are `some` exactly when
the supplied value coerces to a number. -/
structure FRInput where
  year : String := ""
  weekRange : String := ""
  farm : String := ""
  greenhouse : String := ""
  bed : String := ""
  crop : String := ""
  variety : String := ""
  pest : String := ""
  disease : String := ""
  pestRate : Option Int := none
  diseaseRate : Option Int := none
deriving DecidableEq, Repr

/-- The reduce in the farm report append: max of (id or 0) with seed 0. -/
def maxIdFR (rows : List FarmRow) : Int :=
  rows.foldl (fun m r => max m (r.id.getD 0)) 0

/-- POST /farmreport: 400 (file untouched) when week range, farm or
greenhouse is missing; else append a row with the coerced rates, the next id
and the creation timestamp `now`.  Returns the HTTP status and the file
content after the request. -/
def farmReportAppend (rows : List FarmRow) (inp : FRInput) (now : Nat) :
    Nat × List FarmRow :=
  if inp.weekRange = "" ∨ inp.farm = "" ∨ inp.greenhouse = "" then (400, rows)
  else
    let nextId := maxIdFR rows + 1
    let newRow : FarmRow :=
      { id := some nextId, year := inp.year,
        weekRange := jsTrim inp.weekRange, farm := inp.farm,
        greenhouse := inp.greenhouse, bed := inp.bed, crop := inp.crop,
        variety := inp.variety, pest := inp.pest, disease := inp.disease,
        pestRate := inp.pestRate.getD 0, diseaseRate := inp.diseaseRate.getD 0,
        createdAt := some now }
    (200, rows ++ [newRow])

/-- A stored user record. -/
structure User where
  id : Option Int := none
  username : String := ""
  password : String := ""
  role : String := ""
  payrollNumber : String := ""
  createdAt : Nat := 0
deriving DecidableEq, Repr

/-- A payroll reference record mapping a payroll number to a role. -/
structure PayrollRec where
  payrollNumber : String := ""
  role : String := ""
deriving DecidableEq, Repr

/-- Response of POST /register. -/
structure RegResp where
  success : Bool
  message : Option String
deriving DecidableEq, Repr

/-- The fixed role enumeration. -/
def rolesList : List String :=
  ["Viewer", "Supervisor", "Agronomist", "GeneralManager"]

/-- POST /register: required-fields guard, role guard, username-uniqueness
guard, then the payroll cross-check; only when the payroll record exists and
its role equals the requested one is a user appended.  Returns the response
and the user file content after the request. -/
def registerUser (users : List User) (payroll : List PayrollRec)
    (username password role payrollNumber : String) (now : Nat) :
    RegResp × List User :=
  if username = "" ∨ password = "" ∨ role = "" ∨ payrollNumber = "" then
    ({ success := false, message := some "All fields are required" }, users)
  else if ¬ role ∈ rolesList then
    ({ success := false, message := some "Invalid role" }, users)
  else if (users.find? (fun u => decide (u.username = username))).isSome then
    ({ success := false, message := some "Username already exists" }, users)
  else
    match payroll.find? (fun p => decide (p.payrollNumber = payrollNumber)) with
    | none => ({ success := false, message := some "Payroll number mismatch" }, users)
    | some p =>
      if p.role ≠ role then
        ({ success := false, message := some "Payroll number mismatch" }, users)
      else
        ({ success := true, message := none },
         users ++ [{ id := some (jsNextIdOf (users.map (fun u => u.id))),
                     username := username, password := password, role := role,
                     payrollNumber := payrollNumber, createdAt := now }])

/-- First stored agronomy row with the given id, the observer the merge
routes use (findIndex and find with strict id equality). -/
def firstById (l : List AgroRow) (i : Int) : Option AgroRow :=
  l.find? (fun r => decide (r.id = some i))

/-! Helper lemmas. -/

theorem foldl_max_le (l : List Int) (a : Int) :
    a ≤ l.foldl max a ∧ ∀ x ∈ l, x ≤ l.foldl max a := by
  induction l generalizing a with
  | nil => simp
  | cons b t ih =>
    obtain ⟨h1, h2⟩ := ih (max a b)
    simp only [List.foldl_cons]
    refine ⟨le_trans (le_max_left a b) h1, ?_⟩
    intro x hx
    rcases List.mem_cons.mp hx with hxb | hxt
    · subst hxb
      exact le_trans (le_max_right a x) h1
    · exact h2 x hxt

theorem foldl_max_mem (l : List Int) (a : Int) :
    l.foldl max a = a ∨ l.foldl max a ∈ l := by
  induction l generalizing a with
  | nil => simp
  | cons b t ih =>
    rcases ih (max a b) with h | h
    · rcases max_choice a b with hm | hm
      · left
        simpa [hm] using h
      · right
        rw [List.foldl_cons, h, hm]
        exact List.mem_cons_self b t
    · right
      exact List.mem_cons_of_mem b h

theorem patchFirst_eq_none (rows : List AgroRow) (i : Int) (v : String)
    (h : ∀ r ∈ rows, r.id ≠ some i) : patchFirst rows i v = none := by
  induction rows with
  | nil => rfl
  | cons x xs ih =>
    have hx : x.id ≠ some i := h x (List.mem_cons_self x xs)
    simp [patchFirst, hx, ih (fun r hr => h r (List.mem_cons_of_mem x hr))]

theorem patchFirst_append (l1 : List AgroRow) (r : AgroRow) (l2 : List AgroRow)
    (i : Int) (v : String) (h1 : ∀ x ∈ l1, x.id ≠ some i) (hr : r.id = some i) :
    patchFirst (l1 ++ r :: l2) i v =
      some (l1 ++ { r with supervisorRemarks := some v } :: l2) := by
  induction l1 with
  | nil => simp [patchFirst, hr]
  | cons x xs ih =>
    have hx : x.id ≠ some i := h1 x (List.mem_cons_self x xs)
    simp [patchFirst, hx, ih (fun y hy => h1 y (List.mem_cons_of_mem x hy))]

theorem maxIdFR_map (rows : List FarmRow) :
    maxIdFR rows = (rows.map (fun r => r.id.getD 0)).foldl max 0 := by
  rw [List.foldl_map]
  rfl

theorem maxIdFR_lt (rows : List FarmRow) (r : FarmRow) (hr : r ∈ rows) :
    r.id.getD 0 ≤ maxIdFR rows := by
  rw [maxIdFR_map]
  exact (foldl_max_le _ 0).2 _ (List.mem_map_of_mem _ hr)

theorem maxIdFR_cases (rows : List FarmRow)
    (hpos : ∀ r ∈ rows, ∀ k : Int, r.id = some k → 1 ≤ k) :
    ((∀ r ∈ rows, r.id = none) ∧ maxIdFR rows = 0) ∨
    (∃ r ∈ rows, r.id = some (maxIdFR rows)) := by
  have hleft : maxIdFR rows = 0 →
      ((∀ r ∈ rows, r.id = none) ∧ maxIdFR rows = 0) := by
    intro hM
    refine ⟨?_, hM⟩
    intro r hr
    cases hid : r.id with
    | none => rfl
    | some k =>
      have hk1 := hpos r hr k hid
      have hk2 := maxIdFR_lt rows r hr
      rw [hid] at hk2
      simp only [Option.getD_some] at hk2
      omega
  rcases foldl_max_mem (rows.map (fun r => r.id.getD 0)) 0 with h0 | hmem
  · exact Or.inl (hleft (by rw [maxIdFR_map, h0]))
  · obtain ⟨r, hr, hval⟩ := List.mem_map.mp hmem
    rw [← maxIdFR_map] at hval
    cases hid : r.id with
    | some k =>
      refine Or.inr ⟨r, hr, ?_⟩
      rw [hid] at hval
      simp only [Option.getD_some] at hval
      rw [hid, hval]
    | none =>
      rw [hid] at hval
      simp only [Option.getD_none] at hval
      exact Or.inl (hleft hval.symm)

/-! Claim theorems. -/

/-- Claim C10: for every request body, the row stored by the agronomy add
operation has supervisorRemarks equal to the empty string, because the
handler writes the field after spreading the body; the row is appended. -/
theorem c10_add_overrides_remarks :
    ∀ (rows : List AgroRow) (body : AgroRow),
      ((agroAdd rows body).2).supervisorRemarks = some "" ∧
      (agroAdd rows body).1 = rows ++ [(agroAdd rows body).2] := by
  intro rows body
  exact ⟨rfl, rfl⟩

/-- Claim C6: with a nonzero identifier matching no stored row the remarks
patch returns 404 and leaves the stored collection exactly unchanged; with a
matching identifier it returns 200 and sets only that row, leaving every
other row unchanged. -/
theorem c6_patch_remarks_atomic :
    (∀ (rows : List AgroRow) (i : Int) (text : Option String),
        i ≠ 0 → (∀ r ∈ rows, r.id ≠ some i) →
        patchSupervisorRemarks rows i text = (404, rows)) ∧
    (∀ (l1 : List AgroRow) (r : AgroRow) (l2 : List AgroRow) (i : Int)
        (text : Option String),
        i ≠ 0 → (∀ x ∈ l1, x.id ≠ some i) → r.id = some i →
        patchSupervisorRemarks (l1 ++ r :: l2) i text =
          (200, l1 ++ { r with supervisorRemarks := some (text.getD "") } :: l2)) := by
  constructor
  · intro rows i text hi h
    simp [patchSupervisorRemarks, hi, patchFirst_eq_none rows i _ h]
  · intro l1 r l2 i text hi h1 hr
    simp [patchSupervisorRemarks, hi, patchFirst_append l1 r l2 i _ h1 hr]

/-- Claim C8: a registration request that passes the field, role and
username guards but whose payroll number maps to no payroll record, or to a
record with a different role, fails with the credential-mismatch message and
leaves the stored user list unchanged. -/
theorem c8_register_mismatch :
    ∀ (users : List User) (payroll : List PayrollRec)
      (un pw role pn : String) (now : Nat),
      un ≠ "" → pw ≠ "" → pn ≠ "" → role ∈ rolesList →
      (∀ u ∈ users, u.username ≠ un) →
      (∀ p ∈ payroll, p.payrollNumber = pn → p.role ≠ role) →
      registerUser users payroll un pw role pn now =
        ({ success := false, message := some "Payroll number mismatch" }, users) := by
  intro users payroll un pw role pn now hun hpw hpn hrole husers hpay
  have hrole0 : role ≠ "" := by
    intro h
    rw [h] at hrole
    simp [rolesList] at hrole
  have hfindu : users.find? (fun u => decide (u.username = un)) = none := by
    rw [List.find?_eq_none]
    intro u hu
    simpa using husers u hu
  unfold registerUser
  rw [if_neg (by simp [hun, hpw, hrole0, hpn])]
  rw [if_neg (by simp [hrole])]
  rw [if_neg (by simp [hfindu])]
  cases hfindp : payroll.find? (fun p => decide (p.payrollNumber = pn)) with
  | none => rfl
  | some p =>
    have hmem : p ∈ payroll := List.mem_of_find?_eq_some hfindp
    have hpred : p.payrollNumber = pn := by
      have := List.find?_some hfindp
      simpa using this
    simp [hpay p hmem hpred]

/-- Claim C7: the farm report append rejects a request missing the week
range, farm or greenhouse with status 400 and appends no row; otherwise it
appends one row whose rates are the coerced numbers (0 for non-numeric
input), whose creation time is stamped, and whose identifier is one plus the
current maximum stored identifier (1 for a store without identifiers), which
is fresh.  The positivity hypothesis is the invariant of every store the
endpoint itself produces. -/
theorem c7_farm_append :
    (∀ (rows : List FarmRow) (inp : FRInput) (now : Nat),
        (inp.weekRange = "" ∨ inp.farm = "" ∨ inp.greenhouse = "") →
        farmReportAppend rows inp now = (400, rows)) ∧
    (∀ (rows : List FarmRow) (inp : FRInput) (now : Nat),
        inp.weekRange ≠ "" → inp.farm ≠ "" → inp.greenhouse ≠ "" →
        (∀ r ∈ rows, ∀ k : Int, r.id = some k → 1 ≤ k) →
        ∃ newRow : FarmRow,
          farmReportAppend rows inp now = (200, rows ++ [newRow]) ∧
          newRow.pestRate = inp.pestRate.getD 0 ∧
          newRow.diseaseRate = inp.diseaseRate.getD 0 ∧
          newRow.createdAt = some now ∧
          ∃ nid : Int, newRow.id = some nid ∧
            (∀ r ∈ rows, ∀ k : Int, r.id = some k → k < nid) ∧
            ((∃ r ∈ rows, r.id = some (nid - 1)) ∨
              ((∀ r ∈ rows, r.id = none) ∧ nid = 1))) := by
  constructor
  · intro rows inp now h
    unfold farmReportAppend
    rw [if_pos h]
  · intro rows inp now h1 h2 h3 hpos
    unfold farmReportAppend
    rw [if_neg (by simp [h1, h2, h3])]
    refine ⟨_, rfl, rfl, rfl, rfl, maxIdFR rows + 1, rfl, ?_, ?_⟩
    · intro r hr k hk
      have := maxIdFR_lt rows r hr
      rw [hk] at this
      simp only [Option.getD_some] at this
      omega
    · rcases maxIdFR_cases rows hpos with ⟨hnone, hM⟩ | ⟨r, hr, hrid⟩
      · exact Or.inr ⟨hnone, by omega⟩
      · refine Or.inl ⟨r, hr, ?_⟩
        rw [hrid]
        congr 1
        omega

/-- Claim C4: one incoming row of the bulk-save operation, taken against the
current stored set, is appended exactly when no stored row shares its
(possibly freshly assigned) identifier and no stored row agrees with it
simultaneously on the farm, gh, area, crop and time fields; when either
condition holds the row is counted as a duplicate and the stored set gains
no entry. -/
theorem c4_save_dedup :
    ∀ (ex : List AgroRow) (added dups : Nat) (row : AgroRow),
      (saveStep (ex, added, dups) row =
          (ex ++ [assignSaveId ex row], added + 1, dups) ↔
        ¬ ∃ r ∈ ex, r.id = (assignSaveId ex row).id ∨
            (r.rest.lookup "farm" = (assignSaveId ex row).rest.lookup "farm" ∧
             r.rest.lookup "gh" = (assignSaveId ex row).rest.lookup "gh" ∧
             r.rest.lookup "area" = (assignSaveId ex row).rest.lookup "area" ∧
             r.rest.lookup "crop" = (assignSaveId ex row).rest.lookup "crop" ∧
             r.rest.lookup "time" = (assignSaveId ex row).rest.lookup "time")) ∧
      ((∃ r ∈ ex, r.id = (assignSaveId ex row).id ∨
            (r.rest.lookup "farm" = (assignSaveId ex row).rest.lookup "farm" ∧
             r.rest.lookup "gh" = (assignSaveId ex row).rest.lookup "gh" ∧
             r.rest.lookup "area" = (assignSaveId ex row).rest.lookup "area" ∧
             r.rest.lookup "crop" = (assignSaveId ex row).rest.lookup "crop" ∧
             r.rest.lookup "time" = (assignSaveId ex row).rest.lookup "time")) →
        saveStep (ex, added, dups) row = (ex, added, dups + 1)) := by
  intro ex added dups row
  have hany : (ex.any (fun r => saveDup r (assignSaveId ex row)) = true) ↔
      (∃ r ∈ ex, r.id = (assignSaveId ex row).id ∨
        (r.rest.lookup "farm" = (assignSaveId ex row).rest.lookup "farm" ∧
         r.rest.lookup "gh" = (assignSaveId ex row).rest.lookup "gh" ∧
         r.rest.lookup "area" = (assignSaveId ex row).rest.lookup "area" ∧
         r.rest.lookup "crop" = (assignSaveId ex row).rest.lookup "crop" ∧
         r.rest.lookup "time" = (assignSaveId ex row).rest.lookup "time")) := by
    simp [saveDup, List.any_eq_true, and_assoc]
  constructor
  · constructor
    · intro heq hex
      unfold saveStep at heq
      rw [if_pos (hany.mpr hex)] at heq
      have := congrArg (fun t => t.2.1) heq
      simp at this
    · intro hnex
      unfold saveStep
      rw [if_neg (fun h => hnex (hany.mp h))]
  · intro hex
    unfold saveStep
    rw [if_pos (hany.mpr hex)]

/-- Claim C1 counterexample: the claim asserts an overlap filter, so with
weekFrom 2 and weekTo 5 the row with week range 1-3 (interval overlapping
2..5) would be included and the result would be the first two rows; the code
instead returns only the 4-4 row and excludes the 1-3 row. -/
theorem c1_overlap_counterexample :
    parseWeekRange "1-3" = some (1, 3) ∧
    (1 : Int) ≤ 5 ∧ (2 : Int) ≤ 3 ∧
    filterFarmRows (weekOnlyQuery 2 5)
        [{ weekRange := "1-3", id := some 1 },
         { weekRange := "4-4", id := some 2 },
         { weekRange := "6-8", id := some 3 }] =
      [{ weekRange := "4-4", id := some 2 }] ∧
    ({ weekRange := "1-3", id := some 1 } : FarmRow) ∉
      filterFarmRows (weekOnlyQuery 2 5)
        [{ weekRange := "1-3", id := some 1 },
         { weekRange := "4-4", id := some 2 },
         { weekRange := "6-8", id := some 3 }] := by
  refine ⟨by decide, by decide, by decide, by decide, by decide⟩

/-- Claim C1 amended: the week filter is a containment filter over inclusive
week intervals: with both bounds active, a stored row is in the search result
exactly when its week-range string parses to an interval s..e with
weekFrom ≤ s and e ≤ weekTo; unparsable rows are excluded. -/
theorem c1_week_filter_containment :
    ∀ (rows : List FarmRow) (a b : Int) (r : FarmRow),
      r ∈ filterFarmRows (weekOnlyQuery a b) rows ↔
        (r ∈ rows ∧ ∃ s e : Int, parseWeekRange r.weekRange = some (s, e) ∧
          a ≤ s ∧ e ≤ b) := by
  intro rows a b r
  unfold filterFarmRows
  rw [(List.perm_insertionSort frLE
        (rows.filter (farmPred (weekOnlyQuery a b)))).mem_iff,
      List.mem_filter]
  refine and_congr_right fun _ => ?_
  unfold farmPred weekOnlyQuery strPass ratePassMin ratePassMax weekPass
  cases hpw : parseWeekRange r.weekRange with
  | none => simp [hpw]
  | some p =>
    obtain ⟨s, e⟩ := p
    simp [hpw]
    constructor
    · intro hc
      exact ⟨s, e, ⟨rfl, rfl⟩, hc⟩
    · rintro ⟨s2, e2, ⟨hs, he⟩, hc⟩
      rw [hs, he]
      exact hc

/-- Claim C9: the farm-report search result is pairwise ordered by
descending creation timestamp (an absent timestamp counting as 0), and rows
with equal (or both absent) timestamps are ordered by descending
identifier. -/
theorem c9_search_sorted :
    ∀ (q : FarmQuery) (rows : List FarmRow),
      (filterFarmRows q rows).Pairwise
        (fun x y => y.createdAt.getD 0 ≤ x.createdAt.getD 0 ∧
          (x.createdAt.getD 0 = y.createdAt.getD 0 → y.id.getD 0 ≤ x.id.getD 0)) := by
  intro q rows
  have h := List.sorted_insertionSort frLE (rows.filter (farmPred q))
  unfold filterFarmRows
  refine List.Pairwise.imp ?_ h
  intro x y hxy
  rcases hxy with hlt | ⟨h1, h2⟩
  · exact ⟨le_of_lt hlt, fun he => absurd he.symm (ne_of_lt hlt)⟩
  · exact ⟨le_of_eq h1.symm, fun _ => h2⟩

theorem jsNextIdOf_gt (ids : List (Option Int)) :
    ∀ o ∈ ids, o.getD 0 < jsNextIdOf ids := by
  intro o ho
  unfold jsNextIdOf
  cases hm : ids.map (fun o => o.getD 0) with
  | nil =>
    rw [List.map_eq_nil_iff] at hm
    subst hm
    simp at ho
  | cons v vs =>
    have hmem : o.getD 0 ∈ v :: vs := by
      rw [← hm]
      exact List.mem_map_of_mem _ ho
    obtain ⟨hseed, hall⟩ := foldl_max_le vs v
    show o.getD 0 < vs.foldl max v + 1
    rcases List.mem_cons.mp hmem with h | h
    · rw [h]
      omega
    · have := hall _ h
      omega

theorem jsNextId_gt (rows : List AgroRow) :
    ∀ r ∈ rows, r.id.getD 0 < jsNextId rows := by
  intro r hr
  exact jsNextIdOf_gt (rows.map (fun x => x.id)) r.id (List.mem_map_of_mem _ hr)

theorem addSeq_ids_mono (bodies : List AgroRow) :
    ∀ rows : List AgroRow, (∀ b ∈ bodies, b.id = none) →
      List.Chain' (fun x y => x < y) (addSeq rows bodies).2 ∧
      (∀ j ∈ (addSeq rows bodies).2, ∀ r ∈ rows, r.id.getD 0 < j) := by
  induction bodies with
  | nil =>
    intro rows _
    simp [addSeq]
  | cons b bs ih =>
    intro rows hb
    have hbid : b.id = none := hb b (List.mem_cons_self b bs)
    have hj1 : (agroAdd rows b).2.id.getD 0 = jsNextId rows := by
      simp [agroAdd, hbid]
    obtain ⟨ihc, ihgt⟩ := ih (agroAdd rows b).1
      (fun x hx => hb x (List.mem_cons_of_mem b hx))
    have hstate : (agroAdd rows b).1 = rows ++ [(agroAdd rows b).2] := rfl
    have hform : (addSeq rows (b :: bs)).2 =
        (agroAdd rows b).2.id.getD 0 :: (addSeq (agroAdd rows b).1 bs).2 := rfl
    rw [hform]
    constructor
    · rw [List.chain'_cons']
      refine ⟨?_, ihc⟩
      intro j2 hj2
      have hmem : j2 ∈ (addSeq (agroAdd rows b).1 bs).2 :=
        List.mem_of_mem_head? hj2
      exact ihgt j2 hmem (agroAdd rows b).2
        (by rw [hstate]; exact List.mem_append_right _ (List.mem_singleton.mpr rfl))
    · intro j hj r hr
      rcases List.mem_cons.mp hj with h | h
      · rw [h, hj1]
        exact jsNextId_gt rows r hr
      · exact ihgt j h r (by rw [hstate]; exact List.mem_append_left _ hr)

/-- Claim C5 counterexample: adding to the store whose single row has
identifier 3 a request body that itself carries identifier 3 stores a row
with identifier 3 again, because the body spread overrides the computed
identifier; the assigned identifier is not distinct from the identifiers
already present, refuting the claim. -/
theorem c5_counterexample :
    ((agroAdd [({ id := some 3 } : AgroRow)] { id := some 3 }).2).id = some 3 ∧
    ¬ (∀ r ∈ [({ id := some 3 } : AgroRow)],
        ((agroAdd [({ id := some 3 } : AgroRow)] { id := some 3 }).2).id ≠ r.id) := by
  constructor
  · rfl
  · intro h
    exact h _ (List.mem_singleton.mpr rfl) rfl

/-- Claim C5 amended: for add calls whose request bodies do not carry an id
field, the assigned identifiers are strictly increasing across the sequence
and distinct from every identifier already present; each new identifier is
one plus the maximum over the stored rows of identifier-or-zero, which under
the invariant that stored identifiers are at least 1 is one plus the current
maximum stored identifier, and 1 when the store has no identifiers. -/
theorem c5_add_ids_amended :
    (∀ (rows bodies : List AgroRow),
        (∀ b ∈ bodies, b.id = none) →
        List.Chain' (fun x y => x < y) (addSeq rows bodies).2 ∧
        (∀ j ∈ (addSeq rows bodies).2, ∀ r ∈ rows, r.id ≠ some j)) ∧
    (∀ (rows : List AgroRow) (b : AgroRow), b.id = none →
        ((agroAdd rows b).2).id = some (jsNextId rows)) ∧
    (∀ rows : List AgroRow,
        (∀ r ∈ rows, ∀ k : Int, r.id = some k → 1 ≤ k) →
        (jsNextId rows = 1 ∧ ∀ r ∈ rows, r.id = none) ∨
        (∃ m : Int, (∃ r ∈ rows, r.id = some m) ∧
          (∀ r ∈ rows, ∀ k : Int, r.id = some k → k ≤ m) ∧
          jsNextId rows = m + 1)) := by
  refine ⟨?_, ?_, ?_⟩
  · intro rows bodies hb
    obtain ⟨hc, hgt⟩ := addSeq_ids_mono bodies rows hb
    refine ⟨hc, ?_⟩
    intro j hj r hr hid
    have := hgt j hj r hr
    rw [hid] at this
    simp only [Option.getD_some] at this
    omega
  · intro rows b hbid
    simp [agroAdd, hbid]
  · intro rows hpos
    have hub : ∀ r ∈ rows, r.id.getD 0 < jsNextId rows := jsNextId_gt rows
    by_cases hne : rows = []
    · left
      subst hne
      exact ⟨rfl, by simp⟩
    · have hatt : ∃ r ∈ rows, r.id.getD 0 = jsNextId rows - 1 := by
        cases rows with
        | nil => exact absurd rfl hne
        | cons r0 rs =>
          unfold jsNextId jsNextIdOf
          simp only [List.map_cons, List.map_map, Function.comp_def]
          rcases foldl_max_mem (rs.map fun r => r.id.getD 0) (r0.id.getD 0) with h | h
          · refine ⟨r0, List.mem_cons_self r0 rs, ?_⟩
            rw [h]
            omega
          · obtain ⟨r, hr, hval⟩ := List.mem_map.mp h
            refine ⟨r, List.mem_cons_of_mem r0 hr, ?_⟩
            rw [hval]
            omega
      obtain ⟨r, hr, hval⟩ := hatt
      cases hid : r.id with
      | some k =>
        right
        rw [hid] at hval
        simp only [Option.getD_some] at hval
        refine ⟨k, ⟨r, hr, hid⟩, ?_, ?_⟩
        · intro r2 hr2 k2 hk2
          have := hub r2 hr2
          rw [hk2] at this
          simp only [Option.getD_some] at this
          omega
        · omega
      | none =>
        left
        rw [hid] at hval
        simp only [Option.getD_none] at hval
        have hone : jsNextId rows = 1 := by omega
        refine ⟨hone, ?_⟩
        intro r2 hr2
        cases hk2 : r2.id with
        | none => rfl
        | some k2 =>
          have h1 := hpos r2 hr2 k2 hk2
          have h2 := hub r2 hr2
          rw [hk2] at h2
          simp only [Option.getD_some] at h2
          omega

theorem firstById_cons_pos (x : AgroRow) (xs : List AgroRow) (i : Int)
    (hx : x.id = some i) : firstById (x :: xs) i = some x := by
  unfold firstById
  exact List.find?_cons_of_pos _ (by simp [hx])

theorem firstById_cons_neg (x : AgroRow) (xs : List AgroRow) (i : Int)
    (hx : x.id ≠ some i) : firstById (x :: xs) i = firstById xs i := by
  unfold firstById
  exact List.find?_cons_of_neg _ (by simp [hx])

theorem firstById_append_of_isSome (l : List AgroRow) (x : AgroRow) (i : Int)
    (h : (firstById l i).isSome) : firstById (l ++ [x]) i = firstById l i := by
  induction l with
  | nil => simp [firstById] at h
  | cons y ys ih =>
    by_cases hy : y.id = some i
    · rw [List.cons_append, firstById_cons_pos y (ys ++ [x]) i hy,
          firstById_cons_pos y ys i hy]
    · rw [firstById_cons_neg y ys i hy] at h
      rw [List.cons_append, firstById_cons_neg y (ys ++ [x]) i hy,
          firstById_cons_neg y ys i hy]
      exact ih h

theorem bulkMergeFirst_eq_none (l : List AgroRow) (row : AgroRow)
    (h : ∀ r ∈ l, r.id ≠ row.id) : bulkMergeFirst l row = none := by
  induction l with
  | nil => rfl
  | cons x xs ih =>
    unfold bulkMergeFirst
    rw [if_neg (h x (List.mem_cons_self x xs))]
    rw [ih (fun r hr => h r (List.mem_cons_of_mem x hr))]
    rfl

theorem bulkMergeFirst_preserves (i : Int) (s : String) (row2 : AgroRow)
    (hrow2 : row2.id = some i → row2.supervisorRemarks = none) :
    ∀ (l l2 : List AgroRow), bulkMergeFirst l row2 = some l2 →
      (firstById l i).map (fun r => r.supervisorRemarks) = some (some s) →
      (firstById l2 i).map (fun r => r.supervisorRemarks) = some (some s) := by
  intro l
  induction l with
  | nil =>
    intro l2 hm _
    simp [bulkMergeFirst] at hm
  | cons x xs ih =>
    intro l2 hm hf
    unfold bulkMergeFirst at hm
    by_cases hx : x.id = row2.id
    · rw [if_pos hx, Option.some_inj] at hm
      subst hm
      by_cases hxi : x.id = some i
      · have hridi : row2.id = some i := by
          rw [← hx]
          exact hxi
        have hsr2 : row2.supervisorRemarks = none := hrow2 hridi
        rw [firstById_cons_pos x xs i hxi] at hf
        simp only [Option.map_some'] at hf
        rw [Option.some_inj] at hf
        have hmid : (mergeAgro x row2).id = some i := by
          simp [mergeAgro, hridi]
        rw [firstById_cons_pos _ xs i hmid]
        simp [mergeAgro, hsr2, hf]
      · have hridi : row2.id ≠ some i := by
          rw [← hx]
          exact hxi
        have hmid : (mergeAgro x row2).id ≠ some i := by
          simpa [mergeAgro] using hridi
        rw [firstById_cons_neg x xs i hxi] at hf
        rw [firstById_cons_neg _ xs i hmid]
        exact hf
    · rw [if_neg hx] at hm
      cases hys : bulkMergeFirst xs row2 with
      | none =>
        rw [hys] at hm
        simp at hm
      | some ys =>
        rw [hys] at hm
        simp only [Option.map_some'] at hm
        rw [Option.some_inj] at hm
        subst hm
        by_cases hxi : x.id = some i
        · rw [firstById_cons_pos x xs i hxi] at hf
          rw [firstById_cons_pos x ys i hxi]
          exact hf
        · rw [firstById_cons_neg x xs i hxi] at hf
          rw [firstById_cons_neg x ys i hxi]
          exact ih ys hys hf

theorem bulkInsert_preserves (i : Int) (s : String) (merged : List AgroRow)
    (row2 : AgroRow)
    (hrow2 : row2.id = some i → row2.supervisorRemarks = none)
    (h1 : (firstById merged i).map (fun r => r.supervisorRemarks) = some (some s)) :
    (firstById (bulkInsert merged row2) i).map (fun r => r.supervisorRemarks) =
      some (some s) := by
  unfold bulkInsert
  cases hm : bulkMergeFirst merged row2 with
  | some m2 => exact bulkMergeFirst_preserves i s row2 hrow2 merged m2 hm h1
  | none =>
    have hsome : (firstById merged i).isSome := by
      obtain ⟨a, ha, _⟩ := Option.map_eq_some'.mp h1
      rw [ha]
      rfl
    rw [firstById_append_of_isSome merged _ i hsome]
    exact h1

theorem bulkStep_inv (i : Int) (s : String) (_hi : i ≠ 0)
    (st : List AgroRow × Int) (row : AgroRow)
    (hrow : row.id = some i → row.supervisorRemarks = none)
    (h1 : (firstById st.1 i).map (fun r => r.supervisorRemarks) = some (some s))
    (h2 : 0 ≤ st.2) (h3 : 0 < i → i ≤ st.2) :
    (firstById (bulkStep st row).1 i).map (fun r => r.supervisorRemarks) =
        some (some s) ∧
      0 ≤ (bulkStep st row).2 ∧ (0 < i → i ≤ (bulkStep st row).2) := by
  have hfresh : some (st.2 + 1) ≠ some i := by
    intro h
    rw [Option.some_inj] at h
    by_cases hp : 0 < i
    · have := h3 hp
      omega
    · omega
  have main : ∀ (row2 : AgroRow) (a2 : Int), bulkAssign st.2 row = (row2, a2) →
      (row2.id = some i → row2.supervisorRemarks = none) →
      st.2 ≤ a2 →
      (firstById (bulkStep st row).1 i).map (fun r => r.supervisorRemarks) =
          some (some s) ∧
        0 ≤ (bulkStep st row).2 ∧ (0 < i → i ≤ (bulkStep st row).2) := by
    intro row2 a2 ha hr2 hlo
    have e1 : (bulkStep st row).1 = bulkInsert st.1 row2 := by
      simp [bulkStep, ha]
    have e2 : (bulkStep st row).2 = a2 := by
      simp [bulkStep, ha]
    refine ⟨?_, ?_, ?_⟩
    · rw [e1]
      exact bulkInsert_preserves i s st.1 row2 hr2 h1
    · rw [e2]
      omega
    · intro hp
      rw [e2]
      have := h3 hp
      omega
  cases hrid : row.id with
  | none =>
    refine main { row with id := some (st.2 + 1) } (st.2 + 1)
      (by simp [bulkAssign, hrid]) ?_ (by omega)
    intro h
    exact absurd h hfresh
  | some n =>
    by_cases hn : n = 0
    · subst hn
      refine main { row with id := some (st.2 + 1) } (st.2 + 1)
        (by simp [bulkAssign, hrid]) ?_ (by omega)
      intro h
      exact absurd h hfresh
    · exact main row st.2 (by simp [bulkAssign, hrid, hn]) hrow (by omega)

theorem bulkMaxId0_map (l : List AgroRow) :
    bulkMaxId0 l = (l.map (fun r => r.id.getD 0)).foldl max 0 := by
  rw [List.foldl_map]
  rfl

theorem bulkFold_inv (i : Int) (s : String) (hi : i ≠ 0) (batch : List AgroRow) :
    ∀ st : List AgroRow × Int,
      (∀ row ∈ batch, row.id = some i → row.supervisorRemarks = none) →
      (firstById st.1 i).map (fun r => r.supervisorRemarks) = some (some s) →
      0 ≤ st.2 → (0 < i → i ≤ st.2) →
      (firstById (batch.foldl bulkStep st).1 i).map (fun r => r.supervisorRemarks) =
        some (some s) := by
  induction batch with
  | nil =>
    intro st _ h1 _ _
    exact h1
  | cons row rows ih =>
    intro st hb h1 h2 h3
    obtain ⟨g1, g2, g3⟩ := bulkStep_inv i s hi st row
      (hb row (List.mem_cons_self row rows)) h1 h2 h3
    exact ih (bulkStep st row) (fun r hr => hb r (List.mem_cons_of_mem row hr)) g1 g2 g3

/-- Claim C2: bulk_set is idempotent on supervisorRemarks.  When the first
stored row with nonzero identifier i carries a non-empty remark and every
batch row with identifier i omits the field, the merged store still carries
that remark on the row with identifier i; and a batch row whose identifier
matches no stored row is appended with supervisorRemarks defaulted to the
empty string. -/
theorem c2_bulkSet_remarks :
    (∀ (existing batch : List AgroRow) (i : Int) (s : String),
        i ≠ 0 → s ≠ "" →
        (firstById existing i).map (fun r => r.supervisorRemarks) = some (some s) →
        (∀ row ∈ batch, row.id = some i → row.supervisorRemarks = none) →
        (firstById (bulkSet existing batch) i).map (fun r => r.supervisorRemarks) =
          some (some s)) ∧
    (∀ (existing : List AgroRow) (row : AgroRow) (j : Int),
        row.id = some j → j ≠ 0 → (∀ r ∈ existing, r.id ≠ some j) →
        row.supervisorRemarks = none →
        bulkSet existing [row] =
          existing ++ [{ row with supervisorRemarks := some "" }]) := by
  constructor
  · intro existing batch i s hi hs h1 hb
    have h2 : 0 ≤ bulkMaxId0 existing := by
      rw [bulkMaxId0_map]
      exact (foldl_max_le _ 0).1
    have h3 : 0 < i → i ≤ bulkMaxId0 existing := by
      intro hp
      obtain ⟨er, her, _⟩ := Option.map_eq_some'.mp h1
      have hmem : er ∈ existing := List.mem_of_find?_eq_some her
      have hid : er.id = some i := by
        have := List.find?_some her
        simpa using this
      have hle := (foldl_max_le (existing.map (fun r => r.id.getD 0)) 0).2 _
        (List.mem_map_of_mem _ hmem)
      rw [hid] at hle
      simp only [Option.getD_some] at hle
      rw [bulkMaxId0_map]
      exact hle
    exact bulkFold_inv i s hi batch (existing, bulkMaxId0 existing) hb h1 h2 h3
  · intro existing row j hj hjne hex hsr
    have e : bulkSet existing [row] = (bulkStep (existing, bulkMaxId0 existing) row).1 :=
      rfl
    rw [e]
    have ha : bulkAssign (bulkMaxId0 existing) row = (row, bulkMaxId0 existing) := by
      simp [bulkAssign, hj, hjne]
    have hmf : bulkMergeFirst existing row = none := by
      apply bulkMergeFirst_eq_none
      intro r hr
      rw [hj]
      exact hex r hr
    have e1 : (bulkStep (existing, bulkMaxId0 existing) row).1 =
        bulkInsert existing row := by
      simp [bulkStep, ha]
    rw [e1]
    unfold bulkInsert
    rw [hmf]
    simp [bulkAppendFix, hsr]

theorem firstById_append_cons (l1 : List AgroRow) (er : AgroRow) (l2 : List AgroRow)
    (i : Int) (h1 : ∀ x ∈ l1, x.id ≠ some i) (her : er.id = some i) :
    firstById (l1 ++ er :: l2) i = some er := by
  induction l1 with
  | nil => exact firstById_cons_pos er l2 i her
  | cons x xs ih =>
    rw [List.cons_append,
        firstById_cons_neg x (xs ++ er :: l2) i (h1 x (List.mem_cons_self x xs))]
    exact ih (fun y hy => h1 y (List.mem_cons_of_mem x hy))

theorem replaceFirst_append_cons (l1 : List AgroRow) (er : AgroRow)
    (l2 : List AgroRow) (r : AgroRow)
    (h1 : ∀ x ∈ l1, x.id ≠ r.id) (her : er.id = r.id) :
    replaceFirst (l1 ++ er :: l2) r = some (l1 ++ r :: l2) := by
  induction l1 with
  | nil => simp [replaceFirst, her]
  | cons x xs ih =>
    rw [List.cons_append]
    unfold replaceFirst
    rw [if_neg (h1 x (List.mem_cons_self x xs))]
    rw [ih (fun y hy => h1 y (List.mem_cons_of_mem x hy))]
    rfl

theorem replaceFirst_eq_none (l : List AgroRow) (r : AgroRow)
    (h : ∀ x ∈ l, x.id ≠ r.id) : replaceFirst l r = none := by
  induction l with
  | nil => rfl
  | cons x xs ih =>
    unfold replaceFirst
    rw [if_neg (h x (List.mem_cons_self x xs))]
    rw [ih (fun y hy => h y (List.mem_cons_of_mem x hy))]
    rfl

theorem importMap_singleton_found (existingRows : List AgroRow) (raw : RawRow)
    (n : Int) (er : AgroRow) (hid : raw.id = some n) (hn : n ≠ 0)
    (hfind : existingRows.find? (fun r => decide (r.id = some n)) = some er) :
    importMap existingRows [raw] =
      [{ id := some n, supervisorRemarks := er.supervisorRemarks,
         rest := normalizeFields raw }] := by
  simp [importMap, hid, hn, hfind]

theorem importMap_singleton_notfound (existingRows : List AgroRow) (raw : RawRow)
    (n : Int) (hid : raw.id = some n) (hn : n ≠ 0)
    (hfind : existingRows.find? (fun r => decide (r.id = some n)) = none) :
    importMap existingRows [raw] =
      [{ id := some n, supervisorRemarks := some raw.supervisorRemarks,
         rest := normalizeFields raw }] := by
  simp [importMap, hid, hn, hfind]

/-- Claim C3: spreadsheet import preserves existing supervisorRemarks by
identifier lookup and fully replaces a matching-identifier stored row by the
normalized imported row (whose supervisorRemarks is the prior stored value);
an imported row with no matching identifier is appended with its own
remarks value. -/
theorem c3_import_replace :
    (∀ (l1 : List AgroRow) (er : AgroRow) (l2 : List AgroRow) (raw : RawRow)
        (n : Int),
        raw.id = some n → n ≠ 0 →
        (∀ x ∈ l1, x.id ≠ some n) → er.id = some n →
        importFromSpreadsheet (l1 ++ er :: l2) [raw] =
          l1 ++ { id := some n, supervisorRemarks := er.supervisorRemarks,
                  rest := normalizeFields raw } :: l2) ∧
    (∀ (existing : List AgroRow) (raw : RawRow) (m : Int),
        raw.id = some m → m ≠ 0 → (∀ r ∈ existing, r.id ≠ some m) →
        importFromSpreadsheet existing [raw] =
          existing ++ [{ id := some m,
                         supervisorRemarks := some raw.supervisorRemarks,
                         rest := normalizeFields raw }]) := by
  constructor
  · intro l1 er l2 raw n hid hn hl1 her
    have hfind := firstById_append_cons l1 er l2 n hl1 her
    unfold firstById at hfind
    unfold importFromSpreadsheet
    rw [importMap_singleton_found (l1 ++ er :: l2) raw n er hid hn hfind]
    show replaceOrAppend (l1 ++ er :: l2) _ = _
    unfold replaceOrAppend
    rw [replaceFirst_append_cons l1 er l2 _ (fun x hx => hl1 x hx) her]
    rfl
  · intro existing raw m hid hm hex
    have hfind : existing.find? (fun r => decide (r.id = some m)) = none := by
      rw [List.find?_eq_none]
      intro r hr
      simpa using hex r hr
    unfold importFromSpreadsheet
    rw [importMap_singleton_notfound existing raw m hid hm hfind]
    show replaceOrAppend existing _ = _
    unfold replaceOrAppend
    rw [replaceFirst_eq_none existing _ (fun x hx => hex x hx)]
    rfl

/-! Witnesses: each applies the claim theorem at a concrete input. -/

/-- Witness for the amended C1 theorem at a concrete contained row. -/
theorem c1_witness :
    ({ weekRange := "4-4", id := some 2 } : FarmRow) ∈
      filterFarmRows (weekOnlyQuery 2 5) [{ weekRange := "4-4", id := some 2 }] :=
  (c1_week_filter_containment [{ weekRange := "4-4", id := some 2 }] 2 5
      { weekRange := "4-4", id := some 2 }).mpr
    ⟨by decide, 4, 4, by decide, by decide, by decide⟩

/-- Witness for C2 at a concrete store and batch. -/
theorem c2_witness :
    (firstById (bulkSet [{ id := some 1, supervisorRemarks := some "keep" }]
        [{ id := some 1 }]) 1).map (fun r => r.supervisorRemarks) =
      some (some "keep") ∧
    bulkSet [] [{ id := some 2 }] = [{ id := some 2, supervisorRemarks := some "" }] :=
  ⟨c2_bulkSet_remarks.1 [{ id := some 1, supervisorRemarks := some "keep" }]
      [{ id := some 1 }] 1 "keep" (by decide) (by decide) (by decide) (by decide),
   by
     have := c2_bulkSet_remarks.2 [] { id := some 2 } 2 rfl (by decide)
       (by simp) rfl
     simpa using this⟩

/-- Witness for C3 at a concrete store and spreadsheet row. -/
theorem c3_witness :
    importFromSpreadsheet [{ id := some 5, supervisorRemarks := some "old" }]
        [{ id := some 5, farm := "F" }] =
      [{ id := some 5, supervisorRemarks := some "old",
         rest := normalizeFields { id := some 5, farm := "F" } }] ∧
    importFromSpreadsheet [] [{ id := some 7 }] =
      [{ id := some 7, supervisorRemarks := some "",
         rest := normalizeFields { id := some 7 } }] :=
  ⟨by
     have := c3_import_replace.1 [] { id := some 5, supervisorRemarks := some "old" }
       [] { id := some 5, farm := "F" } 5 rfl (by decide) (by simp) rfl
     simpa using this,
   by
     have := c3_import_replace.2 [] { id := some 7 } 7 rfl (by decide) (by simp)
     simpa using this⟩

/-- Witness for C4 at a concrete duplicate row. -/
theorem c4_witness :
    saveStep ([{ id := some 1 }], 0, 0) { id := some 1 } = ([{ id := some 1 }], 0, 1) :=
  (c4_save_dedup [{ id := some 1 }] 0 0 { id := some 1 }).2
    ⟨{ id := some 1 }, by decide, Or.inl (by decide)⟩

/-- Witness for the amended C5 theorem at a concrete store and id-less adds. -/
theorem c5_witness :
    List.Chain' (fun x y : Int => x < y)
      (addSeq [{ id := some 1 }] [({} : AgroRow), {}]).2 ∧
    ((agroAdd [({ id := some 1 } : AgroRow)] {}).2).id =
      some (jsNextId [{ id := some 1 }]) ∧
    ((jsNextId [({ id := some 1 } : AgroRow)] = 1 ∧
        ∀ r ∈ [({ id := some 1 } : AgroRow)], r.id = none) ∨
      (∃ m : Int, (∃ r ∈ [({ id := some 1 } : AgroRow)], r.id = some m) ∧
        (∀ r ∈ [({ id := some 1 } : AgroRow)], ∀ k : Int, r.id = some k → k ≤ m) ∧
        jsNextId [({ id := some 1 } : AgroRow)] = m + 1)) :=
  ⟨(c5_add_ids_amended.1 [{ id := some 1 }] [{}, {}] (by decide)).1,
   c5_add_ids_amended.2.1 [{ id := some 1 }] {} rfl,
   c5_add_ids_amended.2.2 [{ id := some 1 }] (by decide)⟩

/-- Witness for C6 at a missing and at a present identifier. -/
theorem c6_witness :
    patchSupervisorRemarks [{ id := some 1 }] 2 (some "x") = (404, [{ id := some 1 }]) ∧
    patchSupervisorRemarks [{ id := some 1 }] 1 (some "x") =
      (200, [{ id := some 1, supervisorRemarks := some "x" }]) :=
  ⟨c6_patch_remarks_atomic.1 [{ id := some 1 }] 2 (some "x") (by decide) (by decide),
   by
     have := c6_patch_remarks_atomic.2 [] { id := some 1 } [] 1 (some "x")
       (by decide) (by simp) rfl
     simpa using this⟩

/-- Witness for C7 at a concrete missing-field request and a complete one. -/
theorem c7_witness :
    farmReportAppend [] {} 0 = (400, []) ∧
    (∃ newRow : FarmRow,
      farmReportAppend [] { weekRange := "1-2", farm := "f", greenhouse := "g" } 5 =
        (200, [] ++ [newRow]) ∧
      newRow.pestRate = 0 ∧
      newRow.diseaseRate = 0 ∧
      newRow.createdAt = some 5 ∧
      ∃ nid : Int, newRow.id = some nid ∧
        (∀ r ∈ ([] : List FarmRow), ∀ k : Int, r.id = some k → k < nid) ∧
        ((∃ r ∈ ([] : List FarmRow), r.id = some (nid - 1)) ∨
          ((∀ r ∈ ([] : List FarmRow), r.id = none) ∧ nid = 1))) :=
  ⟨c7_farm_append.1 [] {} 0 (Or.inl rfl),
   c7_farm_append.2 [] { weekRange := "1-2", farm := "f", greenhouse := "g" } 5
     (by decide) (by decide) (by decide) (by simp)⟩

/-- Witness for C8 at a concrete payroll table with a mismatching role. -/
theorem c8_witness :
    registerUser [] [{ payrollNumber := "7", role := "Viewer" }]
        "u" "p" "Agronomist" "7" 0 =
      ({ success := false, message := some "Payroll number mismatch" }, []) :=
  c8_register_mismatch [] [{ payrollNumber := "7", role := "Viewer" }]
    "u" "p" "Agronomist" "7" 0 (by decide) (by decide) (by decide) (by decide)
    (by simp) (by decide)

/-- Witness for C9 at a concrete query and store. -/
theorem c9_witness :
    (filterFarmRows (weekOnlyQuery 1 9)
        [{ weekRange := "2-3", id := some 1, createdAt := some 10 },
         { weekRange := "4-4", id := some 2, createdAt := some 20 }]).Pairwise
      (fun x y => y.createdAt.getD 0 ≤ x.createdAt.getD 0 ∧
        (x.createdAt.getD 0 = y.createdAt.getD 0 → y.id.getD 0 ≤ x.id.getD 0)) :=
  c9_search_sorted (weekOnlyQuery 1 9)
    [{ weekRange := "2-3", id := some 1, createdAt := some 10 },
     { weekRange := "4-4", id := some 2, createdAt := some 20 }]

/-- Witness for C10 at a body carrying a non-empty supervisorRemarks. -/
theorem c10_witness :
    ((agroAdd [] { supervisorRemarks := some "try" }).2).supervisorRemarks =
        some "" ∧
    (agroAdd [] { supervisorRemarks := some "try" }).1 =
      [] ++ [(agroAdd [] { supervisorRemarks := some "try" }).2] :=
  c10_add_overrides_remarks [] { supervisorRemarks := some "try" }


end LathySpray
